import Mathlib

/-!
Verification of the policy-matching and risk-scoring engine of the
legal-risk repository (src/src/analysis.py), as a shallow embedding.
Python strings are Lean Strings, Python floats are rationals, Python
dict-based records are structures with Option fields for optional keys,
and a raised exception is modelled as Except.error.
-/

namespace LegalRisk

/-- Python `x or ''` for an optional string argument. -/
def pyOrEmpty : Option String → String
  | none => ""
  | some s => s

/-- Python `s.lower()` (ASCII case folding, as used by the repository). -/
def pyLowerStr (s : String) : String := ⟨s.toList.map Char.toLower⟩

/-- Python `s[:n]` on a string. -/
def pyTakeStr (n : Nat) (s : String) : String := ⟨s.toList.take n⟩

/-- Does `hay` start with `needle`? -/
def startsWith : List Char → List Char → Bool
  | [], _ => true
  | _ :: _, [] => false
  | a :: as, b :: bs => (a == b) && startsWith as bs

/-- Substring search: does `needle` occur somewhere in the list? -/
def subSearch (needle : List Char) : List Char → Bool
  | [] => startsWith needle []
  | b :: bs => startsWith needle (b :: bs) || subSearch needle bs

/-- Python `needle in hay` on strings. -/
def strIn (needle hay : String) : Bool := subSearch needle.toList hay.toList

/-- Python regex `\w` (ASCII fragment relevant to the repository). -/
def isWordCh (c : Char) : Bool := c.isAlphanum || c == '_'

/-- Python regex `\s`. -/
def isSpaceCh (c : Char) : Bool :=
  c == ' ' || c == '\t' || c == '\n' || c == '\r' || c == '\x0B' || c == '\x0C'

/-- Numeric value of a list of decimal digit characters. -/
def digitsVal (ds : List Char) : Nat :=
  ds.foldl (fun n c => n * 10 + (c.toNat - '0'.toNat)) 0

/-- A word boundary `\b` placed after a word character: holds when the
remaining input is empty or starts with a non-word character. -/
def wordBoundaryOk : List Char → Bool
  | [] => true
  | c :: _ => !isWordCh c

/-- Try to match `\d+\s*years?` at the head of the input (the word
boundary before the digits is checked by the caller), returning the
integer value of the digit group.  This is the match attempt of the
regex `(\b(\d+)\s*years?)` at a fixed start position. -/
def yearsMatchAt (l : List Char) : Option Nat :=
  let ds := l.takeWhile Char.isDigit
  let rest := l.dropWhile Char.isDigit
  if ds.isEmpty then none
  else
    let rest2 := rest.dropWhile isSpaceCh
    if startsWith "year".toList rest2 then some (digitsVal ds) else none

/-- Left-to-right scan of `re.search(r'(\b(\d+)\s*years?)', txt)`:
`prevWord` records whether the previous character was a word character
(for the `\b` test). -/
def yearsSearch : Bool → List Char → Option Nat
  | _, [] => none
  | prevWord, c :: rest =>
    if !prevWord && c.isDigit then
      match yearsMatchAt (c :: rest) with
      | some n => some n
      | none => yearsSearch (isWordCh c) rest
    else yearsSearch (isWordCh c) rest

/-- `re.search(r'(\b(\d+)\s*years?)', txt)` with the integer group value. -/
def yearsSearchStr (txt : String) : Option Nat := yearsSearch false txt.toList

/-- Try to match `\d+\.?\d*\s*(x|times)\b` at the head of the input,
returning the numeric value of the number group as Python `float(...)`
would (the word boundary before the digits is checked by the caller). -/
def multMatchAt (l : List Char) : Option ℚ :=
  let ds := l.takeWhile Char.isDigit
  let rest := l.dropWhile Char.isDigit
  if ds.isEmpty then none
  else
    let frRest : ℚ × List Char :=
      match rest with
      | '.' :: r =>
        ((digitsVal (r.takeWhile Char.isDigit) : ℚ) / (10 : ℚ) ^ (r.takeWhile Char.isDigit).length,
          r.dropWhile Char.isDigit)
      | _ => (0, rest)
    let rest2 := frRest.2.dropWhile isSpaceCh
    let value : ℚ := (digitsVal ds : ℚ) + frRest.1
    match rest2 with
    | 'x' :: r3 => if wordBoundaryOk r3 then some value else none
    | _ =>
      if startsWith "times".toList rest2 && wordBoundaryOk (rest2.drop 5) then some value
      else none

/-- Left-to-right scan of `re.search(r'(\b(\d+\.?\d*)\s*(x|times)\b)', txt)`. -/
def multSearch : Bool → List Char → Option ℚ
  | _, [] => none
  | prevWord, c :: rest =>
    if !prevWord && c.isDigit then
      match multMatchAt (c :: rest) with
      | some v => some v
      | none => multSearch (isWordCh c) rest
    else multSearch (isWordCh c) rest

/-- `re.search(r'(\b(\d+\.?\d*)\s*(x|times)\b)', txt)` with the value of
the number group. -/
def multSearchStr (txt : String) : Option ℚ := multSearch false txt.toList

/-- Digits of `n` left-padded with zeros to width `e`. -/
def natPad (e : Nat) (n : Nat) : List Char :=
  let l := (toString n).toList
  List.replicate (e - l.length) '0' ++ l

/-- Drop trailing zero characters. -/
def stripTrailingZeros (l : List Char) : List Char :=
  (l.reverse.dropWhile (fun c => c == '0')).reverse

/-- Rendering of a float value inside a Python f-string, for the values
produced by `float(m.group(2))` (denominators dividing a power of ten):
integer part, a dot, and the fractional digits with trailing zeros
stripped but at least one digit kept (`2.0`, `1.5`). -/
def floatRepr (q : ℚ) : String :=
  match (List.range 31).find? (fun e => (10 : Nat) ^ e % q.den == 0) with
  | some e =>
    let scaled := q.num.natAbs * ((10 : Nat) ^ e / q.den)
    let ip := scaled / (10 : Nat) ^ e
    let fp := scaled % (10 : Nat) ^ e
    let fracL := stripTrailingZeros (natPad e fp)
    let fracS := if fracL.isEmpty then "0" else String.mk fracL
    (if q.num < 0 then "-" else "") ++ toString ip ++ "." ++ fracS
  | none => toString q

/-- The pydantic model `RiskCheck` of src/src/models.py. -/
structure RiskCheck where
  clause_name : String
  policy_rule : String
  extracted_text : String
  is_violation : Bool
  risk_level : String
  citation : String
  reasoning : String
deriving DecidableEq, Repr

/-- The confidentiality branch of `local_rule_check` (analysis.py lines
18-34), computing `(is_violation, risk_level, reasoning)` from the
lower-cased section text. -/
def confidentialityDecision (txt : String) : Bool × String × String :=
  match yearsSearchStr txt with
  | some years =>
    if years < 3 then
      (true, "MEDIUM",
        "Found confidentiality duration " ++ toString years ++
          " year(s) but policy requires >= 3 years.")
    else
      (false, "LOW",
        "Confidentiality duration " ++ toString years ++ " year(s) meets policy.")
  | none => (true, "MEDIUM", "No explicit confidentiality duration found.")

/-- The liability branch of `local_rule_check` (analysis.py lines 38-68). -/
def liabilityDecision (txt : String) : Bool × String × String :=
  if (multSearchStr txt).isSome || strIn "1.5" txt || strIn "total fees" txt then
    match multSearchStr txt with
    | some val =>
      if val ≤ 3 / 2 then
        (false, "LOW", "Liability capped at " ++ floatRepr val ++ "x which meets policy.")
      else
        (true, "HIGH", "Liability capped at " ++ floatRepr val ++ "x which exceeds policy 1.5x.")
    | none =>
      if strIn "1.5" txt then
        (false, "LOW", "Liability text contains 1.5 token; treated as compliant (heuristic).")
      else
        if strIn "total fees" txt then
          (true, "HIGH",
            "Liability limited to total fees paid (no multiplier) -> treated as violation per policy.")
        else
          (true, "HIGH", "Liability cap not numeric or absent; treated as violation.")
  else
    (true, "HIGH", "No explicit safe liability cap found.")

/-- The data-sale branch of `local_rule_check` (analysis.py lines 72-79). -/
def dataDecision (txt : String) : Bool × String × String :=
  if strIn "sell" txt || strIn "commercial" txt then
    (true, "HIGH", "Clause allows selling or commercializing client data without consent.")
  else
    (false, "LOW", "No data sale detected.")

/-- The termination branch of `local_rule_check` (analysis.py lines 83-90). -/
def terminationDecision (txt : String) : Bool × String × String :=
  if strIn "30 days" txt || strIn "30-day" txt || strIn "payment in lieu" txt then
    (false, "LOW", "Adequate termination notice found.")
  else
    (true, "MEDIUM", "No adequate termination notice found.")

/-- The indemnity branch of `local_rule_check` (analysis.py lines 94-107). -/
def indemnityDecision (txt : String) : Bool × String × String :=
  if strIn "neglig" txt && (strIn "client" txt && strIn "indemn" txt) then
    if strIn "provider" txt || strIn "company" txt then
      (true, "HIGH", "Client indemnifies provider even for provider negligence -> violation.")
    else
      (true, "MEDIUM", "Broad indemnity language present; needs narrowing.")
  else
    (false, "LOW", "Indemnity language not overly broad.")

/-- The service-availability branch of `local_rule_check` (analysis.py
lines 111-118). -/
def availabilityDecision (txt : String) : Bool × String × String :=
  if strIn "99.5" txt || strIn "uptime" txt || strIn "guarantee" txt || strIn "compens" txt then
    (false, "LOW", "Service availability / uptime commitment present.")
  else
    (true, "MEDIUM", "No uptime guarantee; provider may suspend arbitrarily.")

/-- The security branch of `local_rule_check` (analysis.py lines 122-129). -/
def securityDecision (txt : String) : Bool × String × String :=
  if strIn "encryption" txt || strIn "access control" txt || strIn "safeguard" txt ||
      strIn "implement" txt then
    (false, "LOW", "Security obligations present.")
  else
    (true, "HIGH", "Provider disclaims security responsibilities.")

/-- The refund branch of `local_rule_check` (analysis.py lines 133-140). -/
def refundDecision (txt : String) : Bool × String × String :=
  if strIn "refund" txt || strIn "compens" txt || strIn "remedy" txt then
    (false, "LOW", "Refund or remedy terms present.")
  else
    (true, "MEDIUM", "No refund/remedy for outages or breaches.")

/-- The governing-law branch of `local_rule_check` (analysis.py lines 144-151). -/
def governingDecision (txt : String) : Bool × String × String :=
  if strIn "new york" txt || strIn "governed by the laws of" txt || strIn "state of" txt then
    (false, "LOW", "Recognized legal jurisdiction present.")
  else
    (true, "HIGH", "Governing law not a recognized jurisdiction or only internal policies.")

/-- The dispute-resolution branch of `local_rule_check` (analysis.py
lines 155-162). -/
def disputeDecision (txt : String) : Bool × String × String :=
  if strIn "arbitration" txt &&
      (strIn "binding" txt || strIn "independent" txt || strIn "judicial" txt) then
    (false, "LOW", "Independent arbitration or judicial review allowed.")
  else
    (true, "HIGH", "Dispute resolution is unilateral or internal-only.")

/-- The priority chain of `local_rule_check` after the confidentiality and
liability tests, over the lowered clause name `cl`, lowered policy rule
`pr` and lowered section text `txt` (analysis.py lines 71-168). -/
def cascadeAfterLiability (cl pr txt : String) : Bool × String × String :=
  if strIn "data" cl || strIn "sell" pr || strIn "commercialize" pr then dataDecision txt
  else if strIn "terminat" cl || strIn "termination" pr then terminationDecision txt
  else if strIn "indemn" cl || strIn "indemn" pr then indemnityDecision txt
  else if strIn "availability" cl || strIn "uptime" pr || strIn "suspend" txt then
    availabilityDecision txt
  else if strIn "security" cl || strIn "protect" pr || strIn "security" txt then
    securityDecision txt
  else if strIn "refund" cl || strIn "refund" pr then refundDecision txt
  else if strIn "govern" cl || strIn "governing" pr || strIn "law" txt then
    governingDecision txt
  else if strIn "dispute" cl || strIn "arbitration" pr || strIn "panel" txt then
    disputeDecision txt
  else
    (false, "LOW", "Clause not directly matched by deterministic checks (treated as low risk).")

/-- Python `value.lower()` on a value that may be `None`: raises
(`Except.error`) when the value is `None`. -/
def optLower : Option String → Except Unit String
  | none => Except.error ()
  | some s => Except.ok (pyLowerStr s)

/-- Validation of a `str` field of the pydantic `RiskCheck` model at
construction time: a `None` value raises. -/
def reqStr : Option String → Except Unit String
  | none => Except.error ()
  | some s => Except.ok s

/-- The lower-cased section text `txt = (relevant_text or '').lower()`
of analysis.py line 10. -/
def lowTxt (relevant_text : Option String) : String := pyLowerStr (pyOrEmpty relevant_text)

/-- The trigger condition of the confidentiality category
(analysis.py line 18), over the lowered clause name and lowered text. -/
def confTrigger (cl txt : String) : Bool :=
  strIn "confidential" cl || strIn "confidenti" txt

/-- `local_rule_check` of src/src/analysis.py (lines 8-179).  The three
arguments may be `None` (a policy dict may lack the keys); `None` for the
clause name raises at `clause.lower()`, `None` for the policy rule raises
at `policy_rule.lower()` or at pydantic validation of the constructed
`RiskCheck`; a raised exception is `Except.error ()`. -/
def local_rule_check (clause_name policy_rule relevant_text : Option String) :
    Except Unit RiskCheck := do
  let txt := lowTxt relevant_text
  let cl ← optLower clause_name
  let d ←
    if confTrigger cl txt then
      pure (confidentialityDecision txt)
    else if strIn "liability" cl then
      pure (liabilityDecision txt)
    else do
      let pr ← optLower policy_rule
      if strIn "liability" pr then pure (liabilityDecision txt)
      else pure (cascadeAfterLiability cl pr txt)
  let cn ← reqStr clause_name
  let prRaw ← reqStr policy_rule
  pure { clause_name := cn
         policy_rule := prRaw
         extracted_text := pyTakeStr 1000 (pyOrEmpty relevant_text)
         is_violation := d.1
         risk_level := d.2.1
         citation := "SECTION (in-file)"
         reasoning := d.2.2 }

/-- A record of the policy list (§6 of the spec; a JSON dict in the
code, read with `p.get(...)`, so every field may be absent). -/
structure Policy where
  clause_name : Option String
  policy_rule : Option String
  risk_level_if_violated : Option String
  importance : Option ℚ
deriving DecidableEq, Repr

/-- `p.get('importance', 1.0)` — the importance with its default. -/
def Policy.imp (p : Policy) : ℚ := p.importance.getD 1

/-- A chunk produced by the chunker: `c.get('id', None)` and
`c.get('text', '')`. -/
structure Chunk where
  id : Option Int
  text : String
deriving DecidableEq, Repr

/-- A result entry: the dict `rc.dict()` of a `RiskCheck` with the two
keys `section_id` and `importance` attached (analysis.py lines 208-210). -/
structure Finding where
  clause_name : String
  policy_rule : String
  extracted_text : String
  is_violation : Bool
  risk_level : String
  citation : String
  reasoning : String
  section_id : Option Int
  importance : ℚ
deriving DecidableEq, Repr

/-- The per-section dict `section_result` (analysis.py lines 195-201);
`violations` is initialized to `[]` and never appended to. -/
structure SectionScore where
  id : Option Int
  text : String
  violations : List String
  section_violation_weight : ℚ
  section_importance_total : ℚ
deriving DecidableEq, Repr

/-- An entry of `top_sections` (analysis.py line 225). -/
structure TopSection where
  id : Option Int
  snippet : String
  score : ℚ
deriving DecidableEq, Repr

/-- An entry of `top_clauses` (analysis.py line 232). -/
structure TopClause where
  clause_name : String
  score : ℚ
deriving DecidableEq, Repr

/-- The report dict returned by
`analyze_chunks_against_policy_all_sections` (analysis.py lines 234-240). -/
structure Report where
  results : List Finding
  section_scores : List SectionScore
  document_risk_percentage : ℚ
  top_sections : List TopSection
  top_clauses : List TopClause
deriving DecidableEq, Repr

/-- `RISK_WEIGHTS = {'LOW': 0.2, 'MEDIUM': 0.5, 'HIGH': 1.0}`
(analysis.py line 6), as a keyed list in insertion order. -/
def RISK_WEIGHTS : List (String × ℚ) := [("LOW", 1 / 5), ("MEDIUM", 1 / 2), ("HIGH", 1)]

/-- `RISK_WEIGHTS.get(level, 0.2)`. -/
def RISK_WEIGHTS_get (level : String) : ℚ :=
  match RISK_WEIGHTS.find? (fun kv => kv.1 == level) with
  | some kv => kv.2
  | none => 1 / 5

/-- Python `min(a, b)`: the second argument when it is strictly smaller,
the first otherwise. -/
def pyMin (a b : ℚ) : ℚ := if b < a then b else a

/-- Python `max(a, b)`: the second argument when it is strictly larger,
the first otherwise. -/
def pyMax (a b : ℚ) : ℚ := if a < b then b else a

/-- Python `max(values)` over a non-empty list (with a default for the
empty case, unreachable here). -/
def pyMaxList (l : List ℚ) (dflt : ℚ) : ℚ :=
  match l with
  | [] => dflt
  | a :: r => r.foldl pyMax a

/-- `max(RISK_WEIGHTS.values())` (analysis.py line 220). -/
def maxRiskWeight : ℚ := pyMaxList (RISK_WEIGHTS.map Prod.snd) 0

/-- The weight contributed by one result entry:
`RISK_WEIGHTS.get(rc.risk_level, 0.2) * importance` when the entry is a
violation, nothing otherwise (analysis.py lines 213-216). -/
def findingWeight (f : Finding) : ℚ :=
  if f.is_violation then RISK_WEIGHTS_get f.risk_level * f.importance else 0

/-- Effectful map that stops at the first exception, in iteration order
(the Python `for` loop around a call that may raise). -/
def mapME (f : α → Except Unit β) : List α → Except Unit (List β)
  | [] => Except.ok []
  | a :: l => do
    let b ← f a
    let bs ← mapME f l
    pure (b :: bs)

/-- One iteration of the inner loop (analysis.py lines 202-211): run
`local_rule_check` on the chunk text and attach `section_id` and
`importance` to the resulting dict. -/
def evalOne (c : Chunk) (p : Policy) : Except Unit Finding :=
  (local_rule_check p.clause_name p.policy_rule (some c.text)).map fun rc =>
    { clause_name := rc.clause_name
      policy_rule := rc.policy_rule
      extracted_text := rc.extracted_text
      is_violation := rc.is_violation
      risk_level := rc.risk_level
      citation := rc.citation
      reasoning := rc.reasoning
      section_id := c.id
      importance := p.imp }

/-- Insert an element into a list assumed sorted by `key` descending,
after every element of strictly larger key and before every element of
equal or smaller key. -/
def insSortedDesc (key : α → ℚ) (a : α) : List α → List α
  | [] => [a]
  | b :: l => if key b ≤ key a then a :: b :: l else b :: insSortedDesc key a l

/-- Python `sorted(l, key=key, reverse=True)`: a stable sort by `key`
descending. -/
def pySortedDesc (key : α → ℚ) : List α → List α
  | [] => []
  | a :: l => insSortedDesc key a (pySortedDesc key l)

/-- Round a rational to an integer, ties to even (Python `round`). -/
def rndHalfEvenInt (q : ℚ) : ℤ :=
  if q - (⌊q⌋ : ℚ) < 1 / 2 then ⌊q⌋
  else if 1 / 2 < q - (⌊q⌋ : ℚ) then ⌊q⌋ + 1
  else if ⌊q⌋ % 2 = 0 then ⌊q⌋ else ⌊q⌋ + 1

/-- Python `round(q, n)`. -/
def pyRound (n : Nat) (q : ℚ) : ℚ :=
  (rndHalfEvenInt (q * (10 : ℚ) ^ n) : ℚ) / (10 : ℚ) ^ n

/-- `clause_agg[name] = clause_agg.get(name, 0.0) + w` on an
insertion-ordered dict: update the existing key in place, or append a new
key at the end (analysis.py line 230). -/
def aggInsert (name : String) (w : ℚ) : List (String × ℚ) → List (String × ℚ)
  | [] => [(name, w)]
  | kv :: rest => if kv.1 = name then (kv.1, kv.2 + w) :: rest else kv :: aggInsert name w rest

/-- The `clause_agg` loop (analysis.py lines 227-230): fold the result
entries in order, accumulating the violation weight per clause name. -/
def clause_aggF (agg : List (String × ℚ)) : List Finding → List (String × ℚ)
  | [] => agg
  | f :: rs =>
    clause_aggF
      (if f.is_violation then aggInsert f.clause_name (RISK_WEIGHTS_get f.risk_level * f.importance) agg
       else agg) rs

/-- Keep the first occurrence of every element, dropping later
duplicates; `seen` holds the elements already emitted. -/
def dedupFirstAux (seen : List String) : List String → List String
  | [] => []
  | a :: l => if seen.contains a then dedupFirstAux seen l else a :: dedupFirstAux (a :: seen) l

/-- First-appearance order: the sequence of distinct elements of a list
in the order of their first occurrence. -/
def dedupFirst (l : List String) : List String := dedupFirstAux [] l

/-- `total_importance` (analysis.py lines 187-189): sum of
`p.get('importance', 1.0) * 1.0` over the policy list. -/
def total_importance (policy : List Policy) : ℚ := (policy.map (fun p => p.imp * 1)).sum

/-- The `section_result` for one chunk given the findings of its inner
loop (analysis.py lines 195-217). -/
def mkSectionScore (c : Chunk) (fs : List Finding) : SectionScore :=
  { id := c.id
    text := pyTakeStr 300 c.text
    violations := []
    section_violation_weight := (fs.map findingWeight).sum
    section_importance_total := (fs.map (fun f => f.importance)).sum }

/-- `section_scores`: one `section_result` per chunk, in document order. -/
def section_scores_of (chunks : List Chunk) (fss : List (List Finding)) : List SectionScore :=
  (chunks.zip fss).map (fun cf => mkSectionScore cf.1 cf.2)

/-- `total_violation_weight`: the violation weights accumulated over all
sections (analysis.py line 216). -/
def tvw_of (ss : List SectionScore) : ℚ := (ss.map (fun s => s.section_violation_weight)).sum

/-- `risk_percentage` before rounding (analysis.py lines 220-221). -/
def risk_percentage_of (policy : List Policy) (ss : List SectionScore) : ℚ :=
  pyMin 100
    (if total_importance policy * maxRiskWeight > 0 then
      tvw_of ss / (total_importance policy * maxRiskWeight) * 100
    else 0)

/-- An entry of `top_sections` built from a section score
(analysis.py line 225). -/
def topSectionEntry (s : SectionScore) : TopSection :=
  { id := s.id, snippet := s.text, score := pyRound 3 s.section_violation_weight }

/-- `top_sections` (analysis.py lines 224-225): stable-sort the section
scores by weight descending, keep those of positive weight, expose
id/snippet/rounded score. -/
def top_sections_of (ss : List SectionScore) : List TopSection :=
  ((pySortedDesc (fun s => s.section_violation_weight) ss).filter
    (fun s => decide (0 < s.section_violation_weight))).map topSectionEntry

/-- `top_clauses` (analysis.py lines 227-232): the clause aggregation
dict as a list of entries, stable-sorted by score descending. -/
def top_clauses_of (results : List Finding) : List TopClause :=
  pySortedDesc (fun t => t.score)
    ((clause_aggF [] results).map (fun kv => { clause_name := kv.1, score := kv.2 }))

/-- Assemble the report dict from the chunks, the policy list and the
per-section finding lists (analysis.py lines 219-240). -/
def buildReport (chunks : List Chunk) (policy : List Policy) (fss : List (List Finding)) :
    Report :=
  { results := fss.flatten
    section_scores := section_scores_of chunks fss
    document_risk_percentage := pyRound 2 (risk_percentage_of policy (section_scores_of chunks fss))
    top_sections := top_sections_of (section_scores_of chunks fss)
    top_clauses := top_clauses_of fss.flatten }

/-- `analyze_chunks_against_policy_all_sections` of src/src/analysis.py
(lines 181-240): evaluate every policy rule against every chunk (outer
loop: chunks in document order, inner loop: rules in policy order,
propagating the first raised exception) and assemble the report. -/
def analyze_chunks_against_policy_all_sections (chunks : List Chunk) (policy : List Policy) :
    Except Unit Report :=
  (mapME (fun c => mapME (evalOne c) policy) chunks).map (buildReport chunks policy)

/-- The empty report, used as fallback by `runReport`. -/
def emptyReport : Report :=
  { results := [], section_scores := [], document_risk_percentage := 0
    top_sections := [], top_clauses := [] }

/-- The report of a run that does not raise. -/
def runReport (chunks : List Chunk) (policy : List Policy) : Report :=
  match analyze_chunks_against_policy_all_sections chunks policy with
  | Except.ok r => r
  | Except.error _ => emptyReport

/-- Is an `Except` value a success? -/
def isOkE : Except Unit α → Bool
  | Except.ok _ => true
  | Except.error _ => false

/-! ### Structural lemmas about the evaluator -/

/-- The decision triple `(is_violation, risk_level, reasoning)` computed
by the priority chain of `local_rule_check` when both the clause name and
the policy rule are strings; the chain is the flattening of the
short-circuit evaluation of analysis.py lines 18-168. -/
def decisionOf (cn pr : String) (t : Option String) : Bool × String × String :=
  if confTrigger (pyLowerStr cn) (lowTxt t) then confidentialityDecision (lowTxt t)
  else if strIn "liability" (pyLowerStr cn) then liabilityDecision (lowTxt t)
  else if strIn "liability" (pyLowerStr pr) then liabilityDecision (lowTxt t)
  else cascadeAfterLiability (pyLowerStr cn) (pyLowerStr pr) (lowTxt t)

/-- On string arguments `local_rule_check` succeeds, returning the
`RiskCheck` whose decision fields come from `decisionOf`. -/
theorem local_rule_check_some_eq (cn pr : String) (t : Option String) :
    local_rule_check (some cn) (some pr) t =
      Except.ok
        { clause_name := cn
          policy_rule := pr
          extracted_text := pyTakeStr 1000 (pyOrEmpty t)
          is_violation := (decisionOf cn pr t).1
          risk_level := (decisionOf cn pr t).2.1
          citation := "SECTION (in-file)"
          reasoning := (decisionOf cn pr t).2.2 } := by
  cases h1 : confTrigger (pyLowerStr cn) (lowTxt t) <;>
  cases h2 : strIn "liability" (pyLowerStr cn) <;>
  cases h3 : strIn "liability" (pyLowerStr pr) <;>
    simp [local_rule_check, decisionOf, optLower, reqStr, h1, h2, h3, bind, Except.bind,
      pure, Except.pure]

/-! ### Lemmas about `mapME`, `Except.map` and `List.flatten` -/

/-- Inversion for `Except.map`. -/
theorem exceptMap_ok {f : α → β} {x : Except Unit α} {r : β}
    (h : x.map f = Except.ok r) : ∃ a, x = Except.ok a ∧ r = f a := by
  cases x with
  | error e => simp [Except.map] at h
  | ok a => refine ⟨a, rfl, ?_⟩; simpa [Except.map] using h.symm

/-- A successful `mapME` relates input and output pointwise. -/
theorem mapME_ok_forall₂ {f : α → Except Unit β} :
    ∀ {l : List α} {ys : List β}, mapME f l = Except.ok ys →
      List.Forall₂ (fun a b => f a = Except.ok b) l ys := by
  intro l
  induction l with
  | nil => intro ys h; simp [mapME] at h; simp [← h]
  | cons a l ih =>
    intro ys h
    simp only [mapME, bind, Except.bind] at h
    cases ha : f a with
    | error e => rw [ha] at h; simp at h
    | ok b =>
      rw [ha] at h
      cases hl : mapME f l with
      | error e => rw [hl] at h; simp at h
      | ok bs =>
        rw [hl] at h
        simp only [pure, Except.pure, Except.ok.injEq] at h
        subst h
        exact List.Forall₂.cons ha (ih hl)

/-- `mapME` succeeds when the function succeeds on every element. -/
theorem mapME_ok_of_forall {f : α → Except Unit β} :
    ∀ {l : List α}, (∀ a ∈ l, ∃ b, f a = Except.ok b) →
      ∃ ys, mapME f l = Except.ok ys := by
  intro l
  induction l with
  | nil => intro _; exact ⟨[], rfl⟩
  | cons a l ih =>
    intro h
    obtain ⟨b, hb⟩ := h a (List.mem_cons_self a l)
    obtain ⟨bs, hbs⟩ := ih (fun x hx => h x (List.mem_cons_of_mem a hx))
    exact ⟨b :: bs, by simp [mapME, bind, Except.bind, hb, hbs, pure, Except.pure]⟩

/-- Length of a flattened list of lists of uniform length. -/
theorem flatten_length_uniform {L : Nat} :
    ∀ {fss : List (List β)}, (∀ ys ∈ fss, ys.length = L) →
      fss.flatten.length = fss.length * L := by
  intro fss
  induction fss with
  | nil => intro _; simp
  | cons ys rest ih =>
    intro h
    simp only [List.flatten_cons, List.length_append, List.length_cons,
      h ys (List.mem_cons_self ys rest), ih (fun x hx => h x (List.mem_cons_of_mem ys hx))]
    ring

/-- Indexing into a flattened list of lists of uniform length `L`:
position `i * L + j` reads entry `j` of inner list `i`. -/
theorem flatten_getElem_uniform {L : Nat} :
    ∀ {fss : List (List β)}, (∀ ys ∈ fss, ys.length = L) →
      ∀ i j, i < fss.length → j < L →
        fss.flatten[i * L + j]? = fss[i]?.bind (fun ys => ys[j]?) := by
  intro fss
  induction fss with
  | nil => intro _ i j hi _; simp at hi
  | cons ys rest ih =>
    intro h i j hi hj
    have hys : ys.length = L := h ys (List.mem_cons_self ys rest)
    cases i with
    | zero =>
      have hlt : (0 : Nat) * L + j < ys.length := by omega
      simp only [List.flatten_cons, Nat.zero_mul, Nat.zero_add]
      rw [List.getElem?_append_left (by omega : j < ys.length)]
      simp
    | succ i =>
      have hge : ys.length ≤ (i + 1) * L + j := by
        rw [hys]; calc L ≤ (i + 1) * L := Nat.le_mul_of_pos_left L (Nat.succ_pos i)
          _ ≤ (i + 1) * L + j := Nat.le_add_right _ _
      simp only [List.flatten_cons]
      rw [List.getElem?_append_right hge]
      have harith : (i + 1) * L + j - ys.length = i * L + j := by
        rw [hys]; ring_nf; omega
      rw [harith, ih (fun x hx => h x (List.mem_cons_of_mem ys hx)) i j
        (by simpa using hi) hj]
      simp

/-! ### Lemmas about the stable descending sort -/

theorem insSortedDesc_perm (key : α → ℚ) (a : α) :
    ∀ l : List α, (insSortedDesc key a l).Perm (a :: l) := by
  intro l
  induction l with
  | nil => simp [insSortedDesc]
  | cons b l ih =>
    by_cases h : key b ≤ key a
    · simp [insSortedDesc, h]
    · simp only [insSortedDesc, if_neg h]
      exact (ih.cons b).trans (List.Perm.swap a b l)

theorem pySortedDesc_perm (key : α → ℚ) :
    ∀ l : List α, (pySortedDesc key l).Perm l := by
  intro l
  induction l with
  | nil => simp [pySortedDesc]
  | cons a l ih =>
    exact (insSortedDesc_perm key a (pySortedDesc key l)).trans (ih.cons a)

theorem mem_insSortedDesc {key : α → ℚ} {a x : α} {l : List α} :
    x ∈ insSortedDesc key a l ↔ x = a ∨ x ∈ l := by
  rw [(insSortedDesc_perm key a l).mem_iff, List.mem_cons]

theorem insSortedDesc_pairwise {key : α → ℚ} {a : α} {l : List α}
    (h : l.Pairwise (fun x y => key y ≤ key x)) :
    (insSortedDesc key a l).Pairwise (fun x y => key y ≤ key x) := by
  induction l with
  | nil => simp [insSortedDesc]
  | cons b l ih =>
    rcases List.pairwise_cons.1 h with ⟨hb, hl⟩
    by_cases hba : key b ≤ key a
    · rw [insSortedDesc, if_pos hba]
      refine List.pairwise_cons.2 ⟨?_, h⟩
      intro x hx
      rcases List.mem_cons.1 hx with rfl | hx
      · exact hba
      · exact le_trans (hb x hx) hba
    · rw [insSortedDesc, if_neg hba]
      refine List.pairwise_cons.2 ⟨?_, ih hl⟩
      intro x hx
      rcases mem_insSortedDesc.1 hx with rfl | hx
      · exact le_of_lt (lt_of_not_le hba)
      · exact hb x hx

theorem pySortedDesc_pairwise (key : α → ℚ) :
    ∀ l : List α, (pySortedDesc key l).Pairwise (fun x y => key y ≤ key x) := by
  intro l
  induction l with
  | nil => simp [pySortedDesc]
  | cons a l ih => exact insSortedDesc_pairwise ih

/-- Stability of the insertion step, phrased per key value: the
subsequence at any fixed key value is preserved, with the new element
first when its key matches. -/
theorem filter_keyval_insSortedDesc (key : α → ℚ) (q : ℚ) (a : α) :
    ∀ l : List α,
      (insSortedDesc key a l).filter (fun x => decide (key x = q)) =
        if key a = q then a :: l.filter (fun x => decide (key x = q))
        else l.filter (fun x => decide (key x = q)) := by
  intro l
  induction l with
  | nil => by_cases h : key a = q <;> simp [insSortedDesc, List.filter, h]
  | cons b l ih =>
    by_cases hba : key b ≤ key a
    · rw [insSortedDesc, if_pos hba]
      by_cases ha : key a = q <;> simp [List.filter_cons, ha]
    · rw [insSortedDesc, if_neg hba]
      by_cases ha : key a = q
      · have hbq : ¬ key b = q := by
          intro hb; rw [← ha] at hb; exact hba (le_of_eq hb)
        simp [List.filter_cons, ha, hbq, ih]
      · by_cases hb : key b = q <;> simp [List.filter_cons, ha, hb, ih]

/-- Stability of the sort, phrased per key value: sorting does not change
the subsequence of elements having any fixed key value. -/
theorem filter_keyval_pySortedDesc (key : α → ℚ) (q : ℚ) :
    ∀ l : List α,
      (pySortedDesc key l).filter (fun x => decide (key x = q)) =
        l.filter (fun x => decide (key x = q)) := by
  intro l
  induction l with
  | nil => simp [pySortedDesc]
  | cons a l ih =>
    rw [pySortedDesc, filter_keyval_insSortedDesc]
    by_cases ha : key a = q <;> simp [List.filter_cons, ha, ih]

theorem insSortedDesc_of_forall_le {key : α → ℚ} {a : α} {l : List α}
    (h : ∀ x ∈ l, key x ≤ key a) : insSortedDesc key a l = a :: l := by
  cases l with
  | nil => rfl
  | cons b l => rw [insSortedDesc, if_pos (h b (List.mem_cons_self b l))]

/-- Filtering commutes with the insertion step on a sorted list. -/
theorem filter_insSortedDesc (key : α → ℚ) (p : α → Bool) (a : α) :
    ∀ l : List α, l.Pairwise (fun x y => key y ≤ key x) →
      (insSortedDesc key a l).filter p =
        if p a then insSortedDesc key a (l.filter p) else l.filter p := by
  intro l
  induction l with
  | nil => cases hpa : p a <;> simp [insSortedDesc, List.filter, hpa]
  | cons b l ih =>
    intro hs
    rcases List.pairwise_cons.1 hs with ⟨hb, hl⟩
    by_cases hba : key b ≤ key a
    · rw [insSortedDesc, if_pos hba]
      cases hpa : p a with
      | false =>
        simp only [List.filter_cons, hpa, Bool.false_eq_true, if_false]
      | true =>
        cases hpb : p b with
        | true =>
          simp only [List.filter_cons, hpa, hpb, if_true]
          rw [insSortedDesc, if_pos hba]
        | false =>
          simp only [List.filter_cons, hpa, hpb, Bool.false_eq_true, if_false, if_true]
          rw [insSortedDesc_of_forall_le]
          intro x hx
          exact le_trans (hb x (List.mem_of_mem_filter hx)) hba
    · rw [insSortedDesc, if_neg hba]
      cases hpb : p b with
      | true =>
        simp only [List.filter_cons, hpb, if_true]
        rw [ih hl]
        cases hpa : p a with
        | false => simp
        | true =>
          simp only [if_true]
          rw [insSortedDesc, if_neg hba]
      | false =>
        simp only [List.filter_cons, hpb, Bool.false_eq_true, if_false]
        exact ih hl

/-- Filtering commutes with the stable sort. -/
theorem filter_pySortedDesc (key : α → ℚ) (p : α → Bool) :
    ∀ l : List α, (pySortedDesc key l).filter p = pySortedDesc key (l.filter p) := by
  intro l
  induction l with
  | nil => simp [pySortedDesc]
  | cons a l ih =>
    rw [pySortedDesc, filter_insSortedDesc key p a _ (pySortedDesc_pairwise key l), ih,
      List.filter_cons]
    cases hpa : p a <;> simp [pySortedDesc]

/-! ### Lemmas about Python rounding -/

theorem rndHalfEvenInt_ge_floor (q : ℚ) : ⌊q⌋ ≤ rndHalfEvenInt q := by
  unfold rndHalfEvenInt
  split
  · exact le_refl _
  · split
    · omega
    · split <;> omega

theorem rndHalfEvenInt_le_int {q : ℚ} {z : ℤ} (h : q ≤ (z : ℚ)) : rndHalfEvenInt q ≤ z := by
  have hf : ⌊q⌋ ≤ z := by
    have := Int.floor_le_floor h
    simpa using this
  unfold rndHalfEvenInt
  split
  · exact hf
  · rename_i hlt
    have hq : (⌊q⌋ : ℚ) + 1 / 2 ≤ q := by
      have := not_lt.1 hlt
      linarith
    have hne : ⌊q⌋ < z := by
      rcases lt_or_eq_of_le hf with h1 | h1
      · exact h1
      · exfalso
        rw [h1] at hq
        have : (z : ℚ) < (z : ℚ) := lt_of_lt_of_le (by linarith) h
        exact lt_irrefl _ this
    split
    · omega
    · split <;> omega

theorem rndHalfEvenInt_ge_int {q : ℚ} {z : ℤ} (h : (z : ℚ) ≤ q) : z ≤ rndHalfEvenInt q :=
  le_trans (Int.le_floor.2 h) (rndHalfEvenInt_ge_floor q)

theorem pyRound_nonneg {q : ℚ} (n : Nat) (h : 0 ≤ q) : 0 ≤ pyRound n q := by
  unfold pyRound
  apply div_nonneg _ (by positivity)
  have : (0 : ℤ) ≤ rndHalfEvenInt (q * (10 : ℚ) ^ n) :=
    rndHalfEvenInt_ge_int (by positivity)
  exact_mod_cast this

theorem pyRound_le_hundred {q : ℚ} (n : Nat) (h : q ≤ 100) : pyRound n q ≤ 100 := by
  unfold pyRound
  rw [div_le_iff₀ (by positivity : (0 : ℚ) < (10 : ℚ) ^ n)]
  have hle : q * (10 : ℚ) ^ n ≤ ((100 * 10 ^ n : ℤ) : ℚ) := by
    push_cast
    have hp : (0 : ℚ) ≤ (10 : ℚ) ^ n := by positivity
    nlinarith
  have := rndHalfEvenInt_le_int hle
  calc (rndHalfEvenInt (q * (10 : ℚ) ^ n) : ℚ) ≤ ((100 * 10 ^ n : ℤ) : ℚ) := by exact_mod_cast this
    _ = 100 * (10 : ℚ) ^ n := by push_cast; ring

theorem pyRound_zero (n : Nat) : pyRound n 0 = 0 := by
  unfold pyRound rndHalfEvenInt
  norm_num

theorem rndHalfEvenInt_le_floor_add_one (q : ℚ) : rndHalfEvenInt q ≤ ⌊q⌋ + 1 := by
  unfold rndHalfEvenInt
  split
  · omega
  · split
    · omega
    · split <;> omega

theorem rndHalfEvenInt_eq_low {q : ℚ} (h : q - (⌊q⌋ : ℚ) < 1 / 2) :
    rndHalfEvenInt q = ⌊q⌋ := by
  unfold rndHalfEvenInt
  rw [if_pos h]

theorem rndHalfEvenInt_eq_high {q : ℚ} (h1 : ¬ q - (⌊q⌋ : ℚ) < 1 / 2)
    (h2 : 1 / 2 < q - (⌊q⌋ : ℚ)) : rndHalfEvenInt q = ⌊q⌋ + 1 := by
  unfold rndHalfEvenInt
  rw [if_neg h1, if_pos h2]

theorem rndHalfEvenInt_eq_tie {q : ℚ} (h1 : ¬ q - (⌊q⌋ : ℚ) < 1 / 2)
    (h2 : ¬ 1 / 2 < q - (⌊q⌋ : ℚ)) :
    rndHalfEvenInt q = if ⌊q⌋ % 2 = 0 then ⌊q⌋ else ⌊q⌋ + 1 := by
  unfold rndHalfEvenInt
  rw [if_neg h1, if_neg h2]

theorem rndHalfEvenInt_mono {q r : ℚ} (h : q ≤ r) : rndHalfEvenInt q ≤ rndHalfEvenInt r := by
  have hf : ⌊q⌋ ≤ ⌊r⌋ := Int.floor_le_floor h
  rcases lt_or_eq_of_le hf with hlt | heq
  · calc rndHalfEvenInt q ≤ ⌊q⌋ + 1 := rndHalfEvenInt_le_floor_add_one q
      _ ≤ ⌊r⌋ := by omega
      _ ≤ rndHalfEvenInt r := rndHalfEvenInt_ge_floor r
  · have hab : q - (⌊q⌋ : ℚ) ≤ r - (⌊r⌋ : ℚ) := by rw [← heq]; linarith
    by_cases h1 : q - (⌊q⌋ : ℚ) < 1 / 2
    · rw [rndHalfEvenInt_eq_low h1, heq]
      exact rndHalfEvenInt_ge_floor r
    · have hb1 : ¬ r - (⌊r⌋ : ℚ) < 1 / 2 := fun hc => h1 (lt_of_le_of_lt hab hc)
      by_cases h2 : 1 / 2 < q - (⌊q⌋ : ℚ)
      · have hb2 : 1 / 2 < r - (⌊r⌋ : ℚ) := lt_of_lt_of_le h2 hab
        rw [rndHalfEvenInt_eq_high h1 h2, rndHalfEvenInt_eq_high hb1 hb2, heq]
      · by_cases h3 : 1 / 2 < r - (⌊r⌋ : ℚ)
        · rw [rndHalfEvenInt_eq_high hb1 h3, ← heq]
          exact rndHalfEvenInt_le_floor_add_one q
        · rw [rndHalfEvenInt_eq_tie h1 h2, rndHalfEvenInt_eq_tie hb1 h3, heq]

theorem pyRound_mono {q r : ℚ} (n : Nat) (h : q ≤ r) : pyRound n q ≤ pyRound n r := by
  unfold pyRound
  have h2 : (rndHalfEvenInt (q * (10 : ℚ) ^ n) : ℚ) ≤ (rndHalfEvenInt (r * (10 : ℚ) ^ n) : ℚ) := by
    exact_mod_cast rndHalfEvenInt_mono
      (mul_le_mul_of_nonneg_right h (by positivity : (0 : ℚ) ≤ (10 : ℚ) ^ n))
  gcongr

/-! ### Lemmas about the weight table and the clause aggregation -/

theorem maxRiskWeight_eq_one : maxRiskWeight = 1 := by with_unfolding_all rfl

theorem pyMin_eq_min (a b : ℚ) : pyMin a b = min a b := by
  unfold pyMin
  rcases lt_or_le b a with h | h
  · rw [if_pos h, min_eq_right (le_of_lt h)]
  · rw [if_neg (not_lt.2 h), min_eq_left h]

theorem RISK_WEIGHTS_get_nonneg (level : String) : 0 ≤ RISK_WEIGHTS_get level := by
  unfold RISK_WEIGHTS_get RISK_WEIGHTS
  cases h1 : ("LOW" == level) <;> cases h2 : ("MEDIUM" == level) <;>
    cases h3 : ("HIGH" == level) <;> simp [List.find?, h1, h2, h3]

theorem RISK_WEIGHTS_get_le_one (level : String) : RISK_WEIGHTS_get level ≤ 1 := by
  unfold RISK_WEIGHTS_get RISK_WEIGHTS
  cases h1 : ("LOW" == level) <;> cases h2 : ("MEDIUM" == level) <;>
    cases h3 : ("HIGH" == level) <;> simp [List.find?, h1, h2, h3] <;> norm_num

/-- Total of the aggregated weights carried by a clause name in an
association list (sums over duplicate keys, harmless since keys stay
distinct). -/
def aggScore (agg : List (String × ℚ)) (n : String) : ℚ :=
  ((agg.filter (fun kv => decide (kv.1 = n))).map Prod.snd).sum

/-- Weight of the violating findings recorded under a clause name:
`RISK_WEIGHTS.get(risk_level, 0.2) * importance` summed over the
violating entries with that name. -/
def violSum (rs : List Finding) (n : String) : ℚ :=
  ((rs.filter (fun f => f.is_violation && decide (f.clause_name = n))).map
    (fun f => RISK_WEIGHTS_get f.risk_level * f.importance)).sum

theorem aggScore_aggInsert (m : String) (w : ℚ) (n : String) :
    ∀ agg : List (String × ℚ),
      aggScore (aggInsert m w agg) n = aggScore agg n + if m = n then w else 0 := by
  intro agg
  induction agg with
  | nil => by_cases h : m = n <;> simp [aggInsert, aggScore, List.filter, h]
  | cons kv rest ih =>
    by_cases hk : kv.1 = m
    · rw [aggInsert, if_pos hk]
      by_cases hn : m = n
      · have hkn : kv.1 = n := hk.trans hn
        simp [aggScore, List.filter_cons, hkn, hn]
        ring
      · have hkn : ¬ kv.1 = n := fun hc => hn (hk.symm.trans hc)
        simp [aggScore, List.filter_cons, hkn, hn]
    · rw [aggInsert, if_neg hk]
      by_cases hkn : kv.1 = n <;>
        simp [aggScore, List.filter_cons, hkn] at ih ⊢ <;> rw [ih] <;> ring

theorem aggScore_clause_aggF (n : String) :
    ∀ (rs : List Finding) (agg : List (String × ℚ)),
      aggScore (clause_aggF agg rs) n = aggScore agg n + violSum rs n := by
  intro rs
  induction rs with
  | nil => intro agg; simp [clause_aggF, violSum, List.filter]
  | cons f rs ih =>
    intro agg
    rw [clause_aggF, ih]
    cases hv : f.is_violation with
    | false => simp [violSum, List.filter_cons, hv]
    | true =>
      by_cases hn : f.clause_name = n
      · simp only [hv, if_true, aggScore_aggInsert, hn]
        simp [violSum, List.filter_cons, hv, hn]
        ring
      · simp only [hv, if_true, aggScore_aggInsert, hn]
        simp [violSum, List.filter_cons, hv, hn]

theorem aggInsert_fst (m : String) (w : ℚ) :
    ∀ agg : List (String × ℚ),
      (aggInsert m w agg).map Prod.fst =
        if (agg.map Prod.fst).contains m then agg.map Prod.fst
        else agg.map Prod.fst ++ [m] := by
  intro agg
  induction agg with
  | nil => simp [aggInsert]
  | cons kv rest ih =>
    by_cases hk : kv.1 = m
    · rw [aggInsert, if_pos hk]
      have : ((kv :: rest).map Prod.fst).contains m = true := by
        simp [List.contains_cons, hk]
      simp [this, hk]
    · rw [aggInsert, if_neg hk]
      have hbeq : (m == kv.1) = false := by
        simp [beq_iff_eq]
        exact fun hc => hk hc.symm
      simp only [List.map_cons, List.contains_cons, hbeq, Bool.false_or, ih]
      split <;> rfl

theorem contains_append_singleton (s : List String) (m x : String) :
    (s ++ [m]).contains x = (m :: s).contains x := by
  induction s with
  | nil => rfl
  | cons b s ih =>
    rw [List.cons_append, List.contains_cons, ih, List.contains_cons, List.contains_cons,
      List.contains_cons]
    cases x == b <;> cases x == m <;> simp

theorem dedupFirstAux_congr {s₁ s₂ : List String}
    (h : ∀ x, s₁.contains x = s₂.contains x) :
    ∀ l : List String, dedupFirstAux s₁ l = dedupFirstAux s₂ l := by
  intro l
  induction l generalizing s₁ s₂ with
  | nil => simp [dedupFirstAux]
  | cons a l ih =>
    rw [dedupFirstAux, dedupFirstAux, h a]
    by_cases hc : s₂.contains a = true
    · rw [if_pos hc, if_pos hc]
      exact ih h
    · rw [if_neg hc, if_neg hc]
      congr 1
      apply ih
      intro x
      rw [List.contains_cons, List.contains_cons, h x]

theorem clause_aggF_fst :
    ∀ (rs : List Finding) (agg : List (String × ℚ)),
      (clause_aggF agg rs).map Prod.fst =
        agg.map Prod.fst ++
          dedupFirstAux (agg.map Prod.fst)
            ((rs.filter (fun f => f.is_violation)).map (fun f => f.clause_name)) := by
  intro rs
  induction rs with
  | nil => intro agg; simp [clause_aggF, dedupFirstAux, List.filter]
  | cons f rs ih =>
    intro agg
    cases hv : f.is_violation with
    | false => rw [clause_aggF]; simp only [hv, Bool.false_eq_true, if_false]
               rw [ih]; simp [List.filter_cons, hv]
    | true =>
      rw [clause_aggF]
      simp only [hv, if_true]
      rw [ih, aggInsert_fst]
      simp only [List.filter_cons, hv, if_true, List.map_cons, dedupFirstAux]
      by_cases hc : (agg.map Prod.fst).contains f.clause_name = true
      · rw [if_pos hc, if_pos hc]
      · rw [if_neg hc, if_neg hc]
        rw [dedupFirstAux_congr
          (fun x => contains_append_singleton (agg.map Prod.fst) f.clause_name x)]
        simp

theorem mem_dedupFirstAux {x : String} :
    ∀ (l : List String) (seen : List String),
      x ∈ dedupFirstAux seen l ↔ x ∈ l ∧ seen.contains x = false := by
  intro l
  induction l with
  | nil => intro seen; simp [dedupFirstAux]
  | cons a l ih =>
    intro seen
    rw [dedupFirstAux]
    by_cases hc : seen.contains a = true
    · rw [if_pos hc, ih]
      constructor
      · rintro ⟨hx, hs⟩
        exact ⟨List.mem_cons_of_mem a hx, hs⟩
      · rintro ⟨hx, hs⟩
        rcases List.mem_cons.1 hx with rfl | hx
        · rw [hc] at hs; cases hs
        · exact ⟨hx, hs⟩
    · rw [if_neg hc]
      simp only [List.mem_cons, ih, List.contains_cons]
      constructor
      · rintro (rfl | ⟨hx, hs⟩)
        · exact ⟨Or.inl rfl, by simpa using hc⟩
        · refine ⟨Or.inr hx, ?_⟩
          rcases Bool.or_eq_false_iff.1 hs with ⟨_, h2⟩
          exact h2
      · rintro ⟨rfl | hx, hs⟩
        · exact Or.inl rfl
        · by_cases hxa : x = a
          · exact Or.inl hxa
          · refine Or.inr ⟨hx, ?_⟩
            simp only [Bool.or_eq_false_iff] at hs ⊢
            refine ⟨?_, hs⟩
            simp [beq_iff_eq, hxa]

theorem nodup_dedupFirstAux :
    ∀ (l : List String) (seen : List String), (dedupFirstAux seen l).Nodup := by
  intro l
  induction l with
  | nil => intro seen; simp [dedupFirstAux]
  | cons a l ih =>
    intro seen
    rw [dedupFirstAux]
    by_cases hc : seen.contains a = true
    · rw [if_pos hc]; exact ih seen
    · rw [if_neg hc]
      refine List.nodup_cons.2 ⟨?_, ih (a :: seen)⟩
      intro hmem
      rcases (mem_dedupFirstAux l (a :: seen)).1 hmem with ⟨_, hs⟩
      simp [List.contains_cons] at hs

theorem aggScore_of_mem_nodup {agg : List (String × ℚ)} {n : String} {v : ℚ}
    (hnd : (agg.map Prod.fst).Nodup) (hm : (n, v) ∈ agg) : aggScore agg n = v := by
  induction agg with
  | nil => cases hm
  | cons kv rest ih =>
    rw [List.map_cons] at hnd
    rcases List.nodup_cons.1 hnd with ⟨hk, hrest⟩
    rcases List.mem_cons.1 hm with heq | hm2
    · have hkv : kv = (n, v) := heq.symm
      subst hkv
      have hfil : rest.filter (fun kv2 => decide (kv2.1 = n)) = [] := by
        rw [List.filter_eq_nil_iff]
        intro kv2 hkv2
        simp only [decide_eq_true_eq]
        intro hc
        apply hk
        show n ∈ _
        rw [← hc]
        exact List.mem_map_of_mem Prod.fst hkv2
      simp [aggScore, List.filter_cons, hfil]
    · have hn : n ∈ rest.map Prod.fst := List.mem_map_of_mem Prod.fst hm2
      have hkn : ¬ kv.1 = n := fun hc => hk (by rw [hc]; exact hn)
      simp only [aggScore, List.filter_cons, hkn, decide_eq_true_eq, if_neg hkn]
      exact ih hrest hm2

/-! ### Lemmas connecting a successful run to its pieces -/

theorem analyze_ok_inv {chunks : List Chunk} {policy : List Policy} {r : Report}
    (hok : analyze_chunks_against_policy_all_sections chunks policy = Except.ok r) :
    ∃ fss, mapME (fun c => mapME (evalOne c) policy) chunks = Except.ok fss ∧
      r = buildReport chunks policy fss := by
  unfold analyze_chunks_against_policy_all_sections at hok
  exact exceptMap_ok hok

/-- A successful run yields, per chunk, findings related pointwise to the
policy list. -/
theorem run_forall₂ {chunks : List Chunk} {policy : List Policy} {fss : List (List Finding)}
    (hfss : mapME (fun c => mapME (evalOne c) policy) chunks = Except.ok fss) :
    List.Forall₂ (fun c fs => List.Forall₂ (fun p f => evalOne c p = Except.ok f) policy fs)
      chunks fss :=
  (mapME_ok_forall₂ hfss).imp (fun _ _ h => mapME_ok_forall₂ h)

theorem forall₂_mem_right {R : α → β → Prop} :
    ∀ {l₁ : List α} {l₂ : List β}, List.Forall₂ R l₁ l₂ → ∀ {b}, b ∈ l₂ →
      ∃ a ∈ l₁, R a b := by
  intro l₁ l₂ h
  induction h with
  | nil => intro b hb; cases hb
  | cons h1 h2 ih =>
    intro b hb
    rcases List.mem_cons.1 hb with rfl | hb
    · exact ⟨_, List.mem_cons_self _ _, h1⟩
    · obtain ⟨a, ha, hr⟩ := ih hb
      exact ⟨a, List.mem_cons_of_mem _ ha, hr⟩

theorem evalOne_ok_fields {c : Chunk} {p : Policy} {f : Finding}
    (h : evalOne c p = Except.ok f) : f.importance = p.imp ∧ f.section_id = c.id := by
  unfold evalOne at h
  obtain ⟨rc, _, hf⟩ := exceptMap_ok h
  rw [hf]
  exact ⟨rfl, rfl⟩

theorem fs_importance_map {c : Chunk} {policy : List Policy} {fs : List Finding}
    (h : List.Forall₂ (fun p f => evalOne c p = Except.ok f) policy fs) :
    fs.map (fun f => f.importance) = policy.map Policy.imp := by
  induction h with
  | nil => rfl
  | cons h1 _ ih => simp [List.map_cons, ih, (evalOne_ok_fields h1).1]

theorem sit_eq_total {c : Chunk} {policy : List Policy} {fs : List Finding}
    (h : List.Forall₂ (fun p f => evalOne c p = Except.ok f) policy fs) :
    (mkSectionScore c fs).section_importance_total = total_importance policy := by
  unfold mkSectionScore total_importance
  simp only [fs_importance_map h, mul_one]

theorem findingWeight_nonneg {f : Finding} (h : 0 ≤ f.importance) : 0 ≤ findingWeight f := by
  unfold findingWeight
  split
  · exact mul_nonneg (RISK_WEIGHTS_get_nonneg _) h
  · exact le_refl 0

theorem findingWeight_le_importance {f : Finding} (h : 0 ≤ f.importance) :
    findingWeight f ≤ f.importance := by
  unfold findingWeight
  split
  · calc RISK_WEIGHTS_get f.risk_level * f.importance
        ≤ 1 * f.importance := mul_le_mul_of_nonneg_right (RISK_WEIGHTS_get_le_one _) h
      _ = f.importance := one_mul _
  · exact h

theorem fs_importance_nonneg {c : Chunk} {policy : List Policy} {fs : List Finding}
    (himp : ∀ p ∈ policy, 0 ≤ p.imp)
    (h : List.Forall₂ (fun p f => evalOne c p = Except.ok f) policy fs) :
    ∀ f ∈ fs, 0 ≤ f.importance := by
  intro f hf
  obtain ⟨p, hp, heval⟩ := forall₂_mem_right h hf
  rw [(evalOne_ok_fields heval).1]
  exact himp p hp

theorem svw_nonneg_of {c : Chunk} {policy : List Policy} {fs : List Finding}
    (himp : ∀ p ∈ policy, 0 ≤ p.imp)
    (h : List.Forall₂ (fun p f => evalOne c p = Except.ok f) policy fs) :
    0 ≤ (mkSectionScore c fs).section_violation_weight := by
  unfold mkSectionScore
  apply List.sum_nonneg
  intro x hx
  obtain ⟨f, hf, rfl⟩ := List.mem_map.1 hx
  exact findingWeight_nonneg (fs_importance_nonneg himp h f hf)

theorem svw_le_sit_of {c : Chunk} {policy : List Policy} {fs : List Finding}
    (himp : ∀ p ∈ policy, 0 ≤ p.imp)
    (h : List.Forall₂ (fun p f => evalOne c p = Except.ok f) policy fs) :
    (mkSectionScore c fs).section_violation_weight ≤
      (mkSectionScore c fs).section_importance_total := by
  unfold mkSectionScore
  apply List.sum_le_sum
  intro f hf
  exact findingWeight_le_importance (fs_importance_nonneg himp h f hf)

theorem mem_section_scores_of {chunks : List Chunk} {fss : List (List Finding)}
    {s : SectionScore} (hs : s ∈ section_scores_of chunks fss) :
    ∃ cf ∈ chunks.zip fss, s = mkSectionScore cf.1 cf.2 := by
  unfold section_scores_of at hs
  obtain ⟨cf, hcf, rfl⟩ := List.mem_map.1 hs
  exact ⟨cf, hcf, rfl⟩

theorem zip_rel_of_run {chunks : List Chunk} {policy : List Policy} {fss : List (List Finding)}
    (hfss : mapME (fun c => mapME (evalOne c) policy) chunks = Except.ok fss)
    {c : Chunk} {fs : List Finding} (hm : (c, fs) ∈ chunks.zip fss) :
    List.Forall₂ (fun p f => evalOne c p = Except.ok f) policy fs :=
  List.forall₂_zip (run_forall₂ hfss) hm

theorem total_importance_nonneg {policy : List Policy} (himp : ∀ p ∈ policy, 0 ≤ p.imp) :
    0 ≤ total_importance policy := by
  unfold total_importance
  apply List.sum_nonneg
  intro x hx
  obtain ⟨p, hp, rfl⟩ := List.mem_map.1 hx
  rw [mul_one]
  exact himp p hp

theorem tvw_nonneg {chunks : List Chunk} {policy : List Policy} {fss : List (List Finding)}
    (himp : ∀ p ∈ policy, 0 ≤ p.imp)
    (hfss : mapME (fun c => mapME (evalOne c) policy) chunks = Except.ok fss) :
    0 ≤ tvw_of (section_scores_of chunks fss) := by
  unfold tvw_of
  apply List.sum_nonneg
  intro x hx
  obtain ⟨s, hs, rfl⟩ := List.mem_map.1 hx
  obtain ⟨cf, hcf, rfl⟩ := mem_section_scores_of hs
  exact svw_nonneg_of himp (zip_rel_of_run hfss ((Prod.mk.eta (p := cf)) ▸ hcf))

/-! ### Invariance in `risk_level_if_violated` -/

/-- Two policy records that agree on every field the analysis reads
(everything except `risk_level_if_violated`). -/
def policyEquivExceptRisk (p q : Policy) : Prop :=
  p.clause_name = q.clause_name ∧ p.policy_rule = q.policy_rule ∧ p.importance = q.importance

theorem evalOne_congr {c : Chunk} {p q : Policy} (h : policyEquivExceptRisk p q) :
    evalOne c p = evalOne c q := by
  obtain ⟨h1, h2, h3⟩ := h
  unfold evalOne Policy.imp
  rw [h1, h2, h3]

theorem mapME_evalOne_congr (c : Chunk) {p₁ p₂ : List Policy}
    (h : List.Forall₂ policyEquivExceptRisk p₁ p₂) :
    mapME (evalOne c) p₁ = mapME (evalOne c) p₂ := by
  induction h with
  | nil => rfl
  | cons h1 _ ih => simp only [mapME, evalOne_congr h1, ih]

theorem total_importance_congr {p₁ p₂ : List Policy}
    (h : List.Forall₂ policyEquivExceptRisk p₁ p₂) :
    total_importance p₁ = total_importance p₂ := by
  induction h with
  | nil => rfl
  | @cons a b l₁ l₂ h1 _ ih =>
    unfold total_importance at ih ⊢
    simp only [List.map_cons, List.sum_cons, ih]
    have hab : a.imp = b.imp := by unfold Policy.imp; rw [h1.2.2]
    rw [hab]

/-! ### Demonstration inputs used by the witnesses -/

/-- Two sections of a small contract. -/
def demoChunks : List Chunk :=
  [{ id := some 0, text := "confidential info kept 1 year" },
   { id := some 1, text := "we may sell client data" }]

/-- A two-rule policy library. -/
def demoPolicy : List Policy :=
  [{ clause_name := some "Confidentiality", policy_rule := some "confidentiality term",
     risk_level_if_violated := some "MEDIUM", importance := some 2 },
   { clause_name := some "Data Use", policy_rule := some "do not sell data",
     risk_level_if_violated := none, importance := none }]

/-- `demoPolicy` with every `risk_level_if_violated` changed. -/
def demoPolicy2 : List Policy :=
  [{ clause_name := some "Confidentiality", policy_rule := some "confidentiality term",
     risk_level_if_violated := none, importance := some 2 },
   { clause_name := some "Data Use", policy_rule := some "do not sell data",
     risk_level_if_violated := some "LOW", importance := none }]

/-! ### The claims -/

/-- C3, counterexample: with clause name "Payment", rule "pay promptly"
and body "unlimited liability applies", the confidentiality category does
not trigger and "liability" occurs in the body, yet the evaluator does
not apply the liability decision rule (which would yield
violation/HIGH); it falls through to the default compliant/LOW outcome. -/
theorem claim_C3_counterexample :
    confTrigger (pyLowerStr "Payment") (lowTxt (some "unlimited liability applies")) = false ∧
    strIn "liability" (lowTxt (some "unlimited liability applies")) = true ∧
    local_rule_check (some "Payment") (some "pay promptly")
        (some "unlimited liability applies") =
      Except.ok
        { clause_name := "Payment"
          policy_rule := "pay promptly"
          extracted_text := "unlimited liability applies"
          is_violation := false
          risk_level := "LOW"
          citation := "SECTION (in-file)"
          reasoning := "Clause not directly matched by deterministic checks (treated as low risk)." } ∧
    liabilityDecision (lowTxt (some "unlimited liability applies")) =
      (true, "HIGH", "No explicit safe liability cap found.") := by
  exact ⟨rfl, rfl, rfl, rfl⟩

/-- C3 (amended): when the confidentiality category does not trigger, the
evaluator applies the liability decision rule whenever "liability"
appears case-insensitively in the clause name or in the policy rule text
(occurrences only in the section body do not trigger it). -/
theorem claim_C3 (cn pr : String) (t : Option String)
    (hconf : confTrigger (pyLowerStr cn) (lowTxt t) = false)
    (hlia : (strIn "liability" (pyLowerStr cn) || strIn "liability" (pyLowerStr pr)) = true) :
    local_rule_check (some cn) (some pr) t =
      Except.ok
        { clause_name := cn
          policy_rule := pr
          extracted_text := pyTakeStr 1000 (pyOrEmpty t)
          is_violation := (liabilityDecision (lowTxt t)).1
          risk_level := (liabilityDecision (lowTxt t)).2.1
          citation := "SECTION (in-file)"
          reasoning := (liabilityDecision (lowTxt t)).2.2 } := by
  rw [local_rule_check_some_eq]
  have hd : decisionOf cn pr t = liabilityDecision (lowTxt t) := by
    unfold decisionOf
    simp only [hconf, Bool.false_eq_true, if_false]
    cases h2 : strIn "liability" (pyLowerStr cn) with
    | true => simp [h2]
    | false =>
      have h3 : strIn "liability" (pyLowerStr pr) = true := by
        rw [h2] at hlia
        simpa using hlia
      simp [h2, h3]
  rw [hd]

/-- C3 witness: the amended claim at a concrete input. -/
theorem claim_C3_witness :
    (confTrigger (pyLowerStr "Liability Cap") (lowTxt (some "no cap is given")) = false ∧
      (strIn "liability" (pyLowerStr "Liability Cap") ||
        strIn "liability" (pyLowerStr "liability")) = true) ∧
    local_rule_check (some "Liability Cap") (some "liability") (some "no cap is given") =
      Except.ok
        { clause_name := "Liability Cap"
          policy_rule := "liability"
          extracted_text := pyTakeStr 1000 (pyOrEmpty (some "no cap is given"))
          is_violation := (liabilityDecision (lowTxt (some "no cap is given"))).1
          risk_level := (liabilityDecision (lowTxt (some "no cap is given"))).2.1
          citation := "SECTION (in-file)"
          reasoning := (liabilityDecision (lowTxt (some "no cap is given"))).2.2 } :=
  ⟨⟨rfl, rfl⟩, claim_C3 "Liability Cap" "liability" (some "no cap is given") rfl rfl⟩

/-- C4, counterexample: a missing (`None`) clause name makes
`local_rule_check` raise at `clause.lower()` instead of returning a
Finding. -/
theorem claim_C4_counterexample :
    local_rule_check none (some "no liability cap allowed") (some "some text") =
      Except.error () := by
  exact rfl

/-- C4 (amended): for every string clause name and string policy rule,
`local_rule_check` returns a Finding and never raises, for absent, empty
or arbitrary section text; an absent (`None`) section text gives the same
Finding as the empty string.  (A `None` clause name or `None` policy rule
raises, see the counterexample.) -/
theorem claim_C4 (cn pr : String) (t : Option String) :
    isOkE (local_rule_check (some cn) (some pr) t) = true ∧
    local_rule_check (some cn) (some pr) t =
      local_rule_check (some cn) (some pr) (some (pyOrEmpty t)) := by
  have ho : pyOrEmpty (some (pyOrEmpty t)) = pyOrEmpty t := by cases t <;> rfl
  have hl : lowTxt (some (pyOrEmpty t)) = lowTxt t := by
    unfold lowTxt
    rw [ho]
  constructor
  · rw [local_rule_check_some_eq]
    rfl
  · rw [local_rule_check_some_eq, local_rule_check_some_eq]
    unfold decisionOf
    rw [ho, hl]

/-- C5, counterexample: a text that contains "confidential, 1 year" but
whose first duration pattern is "5 years" is judged compliant/LOW, not
violation/MEDIUM. -/
theorem claim_C5_counterexample :
    strIn "confidential, 1 year" "confidential 5 years; confidential, 1 year" = true ∧
    local_rule_check (some "Confidentiality Term") (some "confidentiality")
        (some "confidential 5 years; confidential, 1 year") =
      Except.ok
        { clause_name := "Confidentiality Term"
          policy_rule := "confidentiality"
          extracted_text := "confidential 5 years; confidential, 1 year"
          is_violation := false
          risk_level := "LOW"
          citation := "SECTION (in-file)"
          reasoning := "Confidentiality duration 5 year(s) meets policy." } := by
  exact ⟨rfl, rfl⟩

/-- C5 (amended): whenever the confidentiality category triggers, the
Finding carries the decision of the confidentiality branch: the first
integer preceding "year"/"years" in the text decides (smaller than 3 is
violation/MEDIUM, at least 3 is compliant/LOW, no duration pattern is
violation/MEDIUM); in particular the text "confidential, 1 year" (whose
first duration pattern is "1 year") gives violation/MEDIUM, see the
witness. -/
theorem claim_C5 (cn pr : String) (t : Option String)
    (htrig : confTrigger (pyLowerStr cn) (lowTxt t) = true) :
    local_rule_check (some cn) (some pr) t =
      Except.ok
        { clause_name := cn
          policy_rule := pr
          extracted_text := pyTakeStr 1000 (pyOrEmpty t)
          is_violation := (confidentialityDecision (lowTxt t)).1
          risk_level := (confidentialityDecision (lowTxt t)).2.1
          citation := "SECTION (in-file)"
          reasoning := (confidentialityDecision (lowTxt t)).2.2 } ∧
    (∀ y, yearsSearchStr (lowTxt t) = some y →
      (y < 3 → (confidentialityDecision (lowTxt t)).1 = true ∧
        (confidentialityDecision (lowTxt t)).2.1 = "MEDIUM") ∧
      (3 ≤ y → (confidentialityDecision (lowTxt t)).1 = false ∧
        (confidentialityDecision (lowTxt t)).2.1 = "LOW")) ∧
    (yearsSearchStr (lowTxt t) = none →
      (confidentialityDecision (lowTxt t)).1 = true ∧
        (confidentialityDecision (lowTxt t)).2.1 = "MEDIUM") := by
  refine ⟨?_, ?_, ?_⟩
  · rw [local_rule_check_some_eq]
    unfold decisionOf
    simp [htrig]
  · intro y hy
    constructor
    · intro hlt
      unfold confidentialityDecision
      rw [hy]
      simp [hlt]
    · intro hge
      have hnlt : ¬ y < 3 := not_lt.2 hge
      unfold confidentialityDecision
      rw [hy]
      simp [hnlt]
  · intro hn
    unfold confidentialityDecision
    rw [hn]
    exact ⟨rfl, rfl⟩

/-- C5 witness: the amended claim at the text "confidential, 1 year",
whose Finding is violation/MEDIUM. -/
theorem claim_C5_witness :
    confTrigger (pyLowerStr "Confidentiality") (lowTxt (some "confidential, 1 year")) = true ∧
    (local_rule_check (some "Confidentiality") (some "keep secrets")
        (some "confidential, 1 year") =
      Except.ok
        { clause_name := "Confidentiality"
          policy_rule := "keep secrets"
          extracted_text := pyTakeStr 1000 (pyOrEmpty (some "confidential, 1 year"))
          is_violation := (confidentialityDecision (lowTxt (some "confidential, 1 year"))).1
          risk_level := (confidentialityDecision (lowTxt (some "confidential, 1 year"))).2.1
          citation := "SECTION (in-file)"
          reasoning := (confidentialityDecision (lowTxt (some "confidential, 1 year"))).2.2 } ∧
      (∀ y, yearsSearchStr (lowTxt (some "confidential, 1 year")) = some y →
        (y < 3 → (confidentialityDecision (lowTxt (some "confidential, 1 year"))).1 = true ∧
          (confidentialityDecision (lowTxt (some "confidential, 1 year"))).2.1 = "MEDIUM") ∧
        (3 ≤ y → (confidentialityDecision (lowTxt (some "confidential, 1 year"))).1 = false ∧
          (confidentialityDecision (lowTxt (some "confidential, 1 year"))).2.1 = "LOW")) ∧
      (yearsSearchStr (lowTxt (some "confidential, 1 year")) = none →
        (confidentialityDecision (lowTxt (some "confidential, 1 year"))).1 = true ∧
          (confidentialityDecision (lowTxt (some "confidential, 1 year"))).2.1 = "MEDIUM")) ∧
    (confidentialityDecision (lowTxt (some "confidential, 1 year"))).1 = true ∧
    (confidentialityDecision (lowTxt (some "confidential, 1 year"))).2.1 = "MEDIUM" :=
  ⟨rfl, claim_C5 "Confidentiality" "keep secrets" (some "confidential, 1 year") rfl,
    rfl, rfl⟩

/-- C8: reports are invariant under any change to (or removal of) the
`risk_level_if_violated` field of policy records: the field is never read
by the evaluator or the aggregation. -/
theorem claim_C8 (chunks : List Chunk) (p₁ p₂ : List Policy)
    (h : List.Forall₂ policyEquivExceptRisk p₁ p₂) :
    analyze_chunks_against_policy_all_sections chunks p₁ =
      analyze_chunks_against_policy_all_sections chunks p₂ := by
  unfold analyze_chunks_against_policy_all_sections
  have hinner : mapME (fun c => mapME (evalOne c) p₁) chunks =
      mapME (fun c => mapME (evalOne c) p₂) chunks := by
    induction chunks with
    | nil => rfl
    | cons c cs ih => simp only [mapME, mapME_evalOne_congr c h, ih]
  rw [hinner]
  have hbuild : buildReport chunks p₁ = buildReport chunks p₂ := by
    funext fss
    unfold buildReport risk_percentage_of
    rw [total_importance_congr h]
  rw [hbuild]

/-- C8 witness: concrete policies differing only in
`risk_level_if_violated` produce the same report. -/
theorem claim_C8_witness :
    List.Forall₂ policyEquivExceptRisk demoPolicy demoPolicy2 ∧
    analyze_chunks_against_policy_all_sections demoChunks demoPolicy =
      analyze_chunks_against_policy_all_sections demoChunks demoPolicy2 :=
  ⟨List.Forall₂.cons ⟨rfl, rfl, rfl⟩ (List.Forall₂.cons ⟨rfl, rfl, rfl⟩ List.Forall₂.nil),
    claim_C8 demoChunks demoPolicy demoPolicy2
      (List.Forall₂.cons ⟨rfl, rfl, rfl⟩ (List.Forall₂.cons ⟨rfl, rfl, rfl⟩ List.Forall₂.nil))⟩

/-- C9: the aggregation is a pure function of the chunk list and the
policy list; runs on equal inputs return equal reports (the embedding is
a deterministic function, matching the absence of randomness, clock or
hidden state in the source). -/
theorem claim_C9 (chunks₁ chunks₂ : List Chunk) (policy₁ policy₂ : List Policy)
    (hc : chunks₁ = chunks₂) (hp : policy₁ = policy₂) :
    analyze_chunks_against_policy_all_sections chunks₁ policy₁ =
      analyze_chunks_against_policy_all_sections chunks₂ policy₂ := by
  rw [hc, hp]

/-- C9 witness: determinism at a concrete input. -/
theorem claim_C9_witness :
    analyze_chunks_against_policy_all_sections demoChunks demoPolicy =
      analyze_chunks_against_policy_all_sections demoChunks demoPolicy :=
  claim_C9 demoChunks demoChunks demoPolicy demoPolicy rfl rfl

/-- C1: the document risk percentage is 0 when the total importance is 0,
and otherwise `min(100, total_violation_weight / (total_importance * 1.0)
* 100)` rounded to 2 decimal places; for every policy list (with
nonnegative importances, as the data model requires) it lies in [0, 100]. -/
theorem claim_C1 (chunks : List Chunk) (policy : List Policy) (r : Report)
    (himp : ∀ p ∈ policy, 0 ≤ p.imp)
    (hok : analyze_chunks_against_policy_all_sections chunks policy = Except.ok r) :
    (total_importance policy = 0 → r.document_risk_percentage = 0) ∧
    (total_importance policy ≠ 0 →
      r.document_risk_percentage =
        pyRound 2 (min 100 (tvw_of r.section_scores / (total_importance policy * 1) * 100))) ∧
    (policy ≠ [] → 0 ≤ r.document_risk_percentage ∧ r.document_risk_percentage ≤ 100) ∧
    (0 ≤ r.document_risk_percentage ∧ r.document_risk_percentage ≤ 100) := by
  obtain ⟨fss, hfss, rfl⟩ := analyze_ok_inv hok
  have hdr : (buildReport chunks policy fss).document_risk_percentage =
      pyRound 2 (risk_percentage_of policy (section_scores_of chunks fss)) := rfl
  have hss : (buildReport chunks policy fss).section_scores =
      section_scores_of chunks fss := rfl
  have htinn : 0 ≤ total_importance policy := total_importance_nonneg himp
  have htv : 0 ≤ tvw_of (section_scores_of chunks fss) := tvw_nonneg himp hfss
  have hbounds : 0 ≤ risk_percentage_of policy (section_scores_of chunks fss) ∧
      risk_percentage_of policy (section_scores_of chunks fss) ≤ 100 := by
    unfold risk_percentage_of
    rw [pyMin_eq_min]
    constructor
    · apply le_min (by norm_num)
      split
      · rename_i hpos
        apply mul_nonneg _ (by norm_num)
        exact div_nonneg htv (le_of_lt hpos)
      · exact le_refl 0
    · exact min_le_left _ _
  refine ⟨?_, ?_, ?_, ?_⟩
  · intro hti
    rw [hdr]
    unfold risk_percentage_of
    rw [maxRiskWeight_eq_one, hti]
    norm_num [pyMin, pyRound_zero]
  · intro hti
    have htpos : 0 < total_importance policy := lt_of_le_of_ne htinn (Ne.symm hti)
    rw [hdr, hss]
    unfold risk_percentage_of
    rw [maxRiskWeight_eq_one, pyMin_eq_min, if_pos (by nlinarith : total_importance policy * 1 > 0)]
  · intro _
    rw [hdr]
    exact ⟨pyRound_nonneg 2 hbounds.1, pyRound_le_hundred 2 hbounds.2⟩
  · rw [hdr]
    exact ⟨pyRound_nonneg 2 hbounds.1, pyRound_le_hundred 2 hbounds.2⟩

/-- C1 witness: the bounds and formula at a concrete run. -/
theorem claim_C1_witness :
    ((∀ p ∈ demoPolicy, 0 ≤ p.imp) ∧
      analyze_chunks_against_policy_all_sections demoChunks demoPolicy =
        Except.ok (runReport demoChunks demoPolicy)) ∧
    ((total_importance demoPolicy = 0 →
        (runReport demoChunks demoPolicy).document_risk_percentage = 0) ∧
      (total_importance demoPolicy ≠ 0 →
        (runReport demoChunks demoPolicy).document_risk_percentage =
          pyRound 2 (min 100 ((tvw_of (runReport demoChunks demoPolicy).section_scores) /
            (total_importance demoPolicy * 1) * 100))) ∧
      (demoPolicy ≠ [] → 0 ≤ (runReport demoChunks demoPolicy).document_risk_percentage ∧
        (runReport demoChunks demoPolicy).document_risk_percentage ≤ 100) ∧
      (0 ≤ (runReport demoChunks demoPolicy).document_risk_percentage ∧
        (runReport demoChunks demoPolicy).document_risk_percentage ≤ 100)) :=
  ⟨⟨of_decide_eq_true (by with_unfolding_all rfl), by with_unfolding_all rfl⟩,
    claim_C1 demoChunks demoPolicy (runReport demoChunks demoPolicy)
      (of_decide_eq_true (by with_unfolding_all rfl)) (by with_unfolding_all rfl)⟩

/-- C10: every section score carries `section_importance_total` equal to
the sum of importances over the whole policy list (the same value,
`total_importance`, for every section), and with nonnegative importances
`0 ≤ section_violation_weight ≤ section_importance_total`. -/
theorem claim_C10 (chunks : List Chunk) (policy : List Policy) (r : Report)
    (hok : analyze_chunks_against_policy_all_sections chunks policy = Except.ok r) :
    (∀ s ∈ r.section_scores, s.section_importance_total = total_importance policy) ∧
    ((∀ p ∈ policy, 0 ≤ p.imp) →
      ∀ s ∈ r.section_scores, 0 ≤ s.section_violation_weight ∧
        s.section_violation_weight ≤ s.section_importance_total) := by
  obtain ⟨fss, hfss, rfl⟩ := analyze_ok_inv hok
  have hss : (buildReport chunks policy fss).section_scores =
      section_scores_of chunks fss := rfl
  rw [hss]
  constructor
  · intro s hs
    obtain ⟨cf, hcf, rfl⟩ := mem_section_scores_of hs
    exact sit_eq_total (zip_rel_of_run hfss ((Prod.mk.eta (p := cf)) ▸ hcf))
  · intro himp s hs
    obtain ⟨cf, hcf, rfl⟩ := mem_section_scores_of hs
    have hrel := zip_rel_of_run hfss ((Prod.mk.eta (p := cf)) ▸ hcf)
    exact ⟨svw_nonneg_of himp hrel, svw_le_sit_of himp hrel⟩

/-- C10 witness: the invariants at a concrete run. -/
theorem claim_C10_witness :
    (analyze_chunks_against_policy_all_sections demoChunks demoPolicy =
      Except.ok (runReport demoChunks demoPolicy)) ∧
    ((∀ s ∈ (runReport demoChunks demoPolicy).section_scores,
        s.section_importance_total = total_importance demoPolicy) ∧
      ((∀ p ∈ demoPolicy, 0 ≤ p.imp) →
        ∀ s ∈ (runReport demoChunks demoPolicy).section_scores,
          0 ≤ s.section_violation_weight ∧
            s.section_violation_weight ≤ s.section_importance_total)) :=
  ⟨by with_unfolding_all rfl,
    claim_C10 demoChunks demoPolicy (runReport demoChunks demoPolicy)
      (by with_unfolding_all rfl)⟩

/-- C2: the results sequence has one entry per (section, rule) pair,
`len(chunks) * len(policy)` in all, ordered section-major rule-minor: the
finding of section `i` and rule `j` sits at index `i * len(policy) + j`. -/
theorem claim_C2 (chunks : List Chunk) (policy : List Policy) (r : Report)
    (hok : analyze_chunks_against_policy_all_sections chunks policy = Except.ok r) :
    r.results.length = chunks.length * policy.length ∧
    ∀ i j (hi : i < chunks.length) (hj : j < policy.length),
      ∃ f, evalOne chunks[i] policy[j] = Except.ok f ∧
        r.results[i * policy.length + j]? = some f := by
  obtain ⟨fss, hfss, rfl⟩ := analyze_ok_inv hok
  have hres : (buildReport chunks policy fss).results = fss.flatten := rfl
  have houter := run_forall₂ hfss
  have hlen_out : chunks.length = fss.length := houter.length_eq
  have hunif : ∀ ys ∈ fss, ys.length = policy.length := by
    intro ys hys
    obtain ⟨c, _, hrel⟩ := forall₂_mem_right houter hys
    exact hrel.length_eq.symm
  constructor
  · rw [hres, flatten_length_uniform hunif, ← hlen_out]
  · intro i j hi hj
    have hi2 : i < fss.length := hlen_out ▸ hi
    have hrel := (List.forall₂_iff_get.1 houter).2 i hi hi2
    have hj2 : j < (fss.get ⟨i, hi2⟩).length := hrel.length_eq ▸ hj
    have hev := (List.forall₂_iff_get.1 hrel).2 j hj hj2
    refine ⟨(fss.get ⟨i, hi2⟩).get ⟨j, hj2⟩, ?_, ?_⟩
    · simpa [List.get_eq_getElem] using hev
    · rw [hres, flatten_getElem_uniform hunif i j hi2 hj,
        List.getElem?_eq_getElem hi2]
      have hj3 : j < fss[i].length := by simpa [List.get_eq_getElem] using hj2
      simp only [Option.some_bind, List.getElem?_eq_getElem hj3]
      simp [List.get_eq_getElem]

/-- C2 witness: shape and order of the results at a concrete run. -/
theorem claim_C2_witness :
    (analyze_chunks_against_policy_all_sections demoChunks demoPolicy =
      Except.ok (runReport demoChunks demoPolicy)) ∧
    ((runReport demoChunks demoPolicy).results.length =
        demoChunks.length * demoPolicy.length ∧
      ∀ i j (hi : i < demoChunks.length) (hj : j < demoPolicy.length),
        ∃ f, evalOne demoChunks[i] demoPolicy[j] = Except.ok f ∧
          (runReport demoChunks demoPolicy).results[i * demoPolicy.length + j]? = some f) :=
  ⟨by with_unfolding_all rfl,
    claim_C2 demoChunks demoPolicy (runReport demoChunks demoPolicy)
      (by with_unfolding_all rfl)⟩

/-- C6: `top_sections` is the stable descending sort (by
`section_violation_weight`) of the section scores with the zero-weight
sections excluded, each entry exposing the id, the 300-character snippet
and the weight rounded to 3 decimal places; the entry scores are
descending; the sort is stable (the subsequence at any fixed weight is
the document-order subsequence); and if every evaluation is compliant,
`top_sections` is empty. -/
theorem claim_C6 (chunks : List Chunk) (policy : List Policy) (r : Report)
    (himp : ∀ p ∈ policy, 0 ≤ p.imp)
    (hok : analyze_chunks_against_policy_all_sections chunks policy = Except.ok r) :
    r.top_sections =
      (pySortedDesc (fun s => s.section_violation_weight)
        (r.section_scores.filter
          (fun s => !(decide (s.section_violation_weight = 0))))).map topSectionEntry ∧
    r.top_sections.Pairwise (fun a b => b.score ≤ a.score) ∧
    (∀ q : ℚ,
      (pySortedDesc (fun s => s.section_violation_weight) r.section_scores).filter
          (fun s => decide (s.section_violation_weight = q)) =
        r.section_scores.filter (fun s => decide (s.section_violation_weight = q))) ∧
    ((∀ f ∈ r.results, f.is_violation = false) → r.top_sections = []) := by
  obtain ⟨fss, hfss, rfl⟩ := analyze_ok_inv hok
  have htop : (buildReport chunks policy fss).top_sections =
      top_sections_of (section_scores_of chunks fss) := rfl
  have hres : (buildReport chunks policy fss).results = fss.flatten := rfl
  have hnn : ∀ s ∈ section_scores_of chunks fss, 0 ≤ s.section_violation_weight := by
    intro s hs
    obtain ⟨cf, hcf, rfl⟩ := mem_section_scores_of hs
    exact svw_nonneg_of himp (zip_rel_of_run hfss ((Prod.mk.eta (p := cf)) ▸ hcf))
  refine ⟨?_, ?_, ?_, ?_⟩
  · rw [htop]
    unfold top_sections_of
    rw [filter_pySortedDesc]
    show _ = (pySortedDesc _ ((section_scores_of chunks fss).filter _)).map _
    congr 2
    apply List.filter_congr
    intro s hs
    rcases lt_or_eq_of_le (hnn s hs) with hlt | heq
    · have hne : ¬ s.section_violation_weight = 0 := ne_of_gt hlt
      simp [hlt, hne]
    · simp [← heq]
  · rw [htop]
    unfold top_sections_of
    exact List.Pairwise.map topSectionEntry (fun a b hab => pyRound_mono 3 hab)
      (List.Pairwise.filter _ (pySortedDesc_pairwise _ _))
  · intro q
    exact filter_keyval_pySortedDesc _ q _
  · intro hcomp
    rw [htop]
    unfold top_sections_of
    have hz : ∀ s ∈ section_scores_of chunks fss, s.section_violation_weight = 0 := by
      intro s hs
      obtain ⟨cf, hcf, rfl⟩ := mem_section_scores_of hs
      show (List.map findingWeight cf.2).sum = 0
      apply List.sum_eq_zero
      intro x hx
      obtain ⟨f, hf, rfl⟩ := List.mem_map.1 hx
      have hfres : f ∈ fss.flatten :=
        List.mem_flatten_of_mem (List.of_mem_zip ((Prod.mk.eta (p := cf)) ▸ hcf)).2 hf
      unfold findingWeight
      simp [hcomp f hfres]
    have hfil : (pySortedDesc (fun s => s.section_violation_weight)
        (section_scores_of chunks fss)).filter
          (fun s => decide (0 < s.section_violation_weight)) = [] := by
      rw [List.filter_eq_nil_iff]
      intro s hs
      have hmem : s ∈ section_scores_of chunks fss :=
        (pySortedDesc_perm (fun s => s.section_violation_weight) _).mem_iff.1 hs
      simp [hz s hmem]
    rw [hfil]
    rfl

/-- C6 witness: ranking at a concrete run with a nonempty top list. -/
theorem claim_C6_witness :
    ((∀ p ∈ demoPolicy, 0 ≤ p.imp) ∧
      analyze_chunks_against_policy_all_sections demoChunks demoPolicy =
        Except.ok (runReport demoChunks demoPolicy)) ∧
    ((runReport demoChunks demoPolicy).top_sections =
      (pySortedDesc (fun s => s.section_violation_weight)
        ((runReport demoChunks demoPolicy).section_scores.filter
          (fun s => !(decide (s.section_violation_weight = 0))))).map topSectionEntry ∧
    (runReport demoChunks demoPolicy).top_sections.Pairwise (fun a b => b.score ≤ a.score) ∧
    (∀ q : ℚ,
      (pySortedDesc (fun s => s.section_violation_weight)
          (runReport demoChunks demoPolicy).section_scores).filter
          (fun s => decide (s.section_violation_weight = q)) =
        (runReport demoChunks demoPolicy).section_scores.filter
          (fun s => decide (s.section_violation_weight = q))) ∧
    ((∀ f ∈ (runReport demoChunks demoPolicy).results, f.is_violation = false) →
      (runReport demoChunks demoPolicy).top_sections = [])) :=
  ⟨⟨of_decide_eq_true (by with_unfolding_all rfl), by with_unfolding_all rfl⟩,
    claim_C6 demoChunks demoPolicy (runReport demoChunks demoPolicy)
      (of_decide_eq_true (by with_unfolding_all rfl)) (by with_unfolding_all rfl)⟩

/-- C7: `top_clauses` groups exactly the violating findings by clause
name — each entry scores the sum of `RISK_WEIGHT[risk_level] *
importance` over that name's violating findings (0.2 for an unrecognized
level), names are distinct and are exactly the violating clause names —
sorted by score descending; the sort is stable over the pre-sort entry
list, whose order is the first-appearance order of the violating clause
names in the results sequence. -/
theorem claim_C7 (chunks : List Chunk) (policy : List Policy) (r : Report)
    (hok : analyze_chunks_against_policy_all_sections chunks policy = Except.ok r) :
    (∀ e ∈ r.top_clauses, e.score = violSum r.results e.clause_name) ∧
    (r.top_clauses.map (fun e => e.clause_name)).Nodup ∧
    (∀ n, (∃ e ∈ r.top_clauses, e.clause_name = n) ↔
      ∃ f ∈ r.results, f.is_violation = true ∧ f.clause_name = n) ∧
    r.top_clauses.Pairwise (fun a b => b.score ≤ a.score) ∧
    (∀ q : ℚ, r.top_clauses.filter (fun e => decide (e.score = q)) =
      ((clause_aggF [] r.results).map (fun kv => TopClause.mk kv.1 kv.2)).filter
        (fun e => decide (e.score = q))) ∧
    (clause_aggF [] r.results).map Prod.fst =
      dedupFirst ((r.results.filter (fun f => f.is_violation)).map
        (fun f => f.clause_name)) := by
  obtain ⟨fss, hfss, rfl⟩ := analyze_ok_inv hok
  have htc : (buildReport chunks policy fss).top_clauses =
      pySortedDesc (fun t => t.score)
        ((clause_aggF [] fss.flatten).map (fun kv => TopClause.mk kv.1 kv.2)) := rfl
  have hres : (buildReport chunks policy fss).results = fss.flatten := rfl
  have hfst : (clause_aggF [] fss.flatten).map Prod.fst =
      dedupFirstAux []
        ((fss.flatten.filter (fun f => f.is_violation)).map (fun f => f.clause_name)) := by
    have h := clause_aggF_fst fss.flatten []
    simpa using h
  have hnd : ((clause_aggF [] fss.flatten).map Prod.fst).Nodup := by
    rw [hfst]
    exact nodup_dedupFirstAux _ _
  have hperm : ((buildReport chunks policy fss).top_clauses).Perm
      ((clause_aggF [] fss.flatten).map (fun kv => TopClause.mk kv.1 kv.2)) := by
    rw [htc]
    exact pySortedDesc_perm _ _
  have hnamecomp :
      ((clause_aggF [] fss.flatten).map (fun kv => TopClause.mk kv.1 kv.2)).map
          (fun e => e.clause_name) =
        (clause_aggF [] fss.flatten).map Prod.fst := by
    rw [List.map_map]
    rfl
  refine ⟨?_, ?_, ?_, ?_, ?_, ?_⟩
  · intro e he
    have he2 := hperm.mem_iff.1 he
    obtain ⟨kv, hkv, rfl⟩ := List.mem_map.1 he2
    show kv.2 = violSum fss.flatten kv.1
    have h1 : aggScore (clause_aggF [] fss.flatten) kv.1 = kv.2 :=
      aggScore_of_mem_nodup hnd ((Prod.mk.eta (p := kv)) ▸ hkv)
    have h2 := aggScore_clause_aggF kv.1 fss.flatten []
    have h3 : aggScore [] kv.1 = 0 := rfl
    rw [h2, h3, zero_add] at h1
    exact h1.symm
  · have := hperm.map (fun e => e.clause_name)
    rw [this.nodup_iff, hnamecomp]
    exact hnd
  · intro n
    have hmm : (∃ e ∈ (buildReport chunks policy fss).top_clauses, e.clause_name = n) ↔
        n ∈ ((buildReport chunks policy fss).top_clauses).map (fun e => e.clause_name) :=
      List.mem_map.symm
    rw [hmm, (hperm.map (fun e => e.clause_name)).mem_iff, hnamecomp, hfst]
    rw [mem_dedupFirstAux]
    constructor
    · rintro ⟨hmemn, _⟩
      obtain ⟨f, hf, rfl⟩ := List.mem_map.1 hmemn
      rcases List.mem_filter.1 hf with ⟨hfr, hviol⟩
      exact ⟨f, hfr, hviol, rfl⟩
    · rintro ⟨f, hf, hviol, rfl⟩
      refine ⟨List.mem_map_of_mem _ (List.mem_filter.2 ⟨hf, hviol⟩), rfl⟩
  · rw [htc]
    exact pySortedDesc_pairwise _ _
  · intro q
    rw [htc]
    exact filter_keyval_pySortedDesc _ q _
  · exact hfst

/-- C7 witness: clause ranking at a concrete run with two violated
clause names. -/
theorem claim_C7_witness :
    (analyze_chunks_against_policy_all_sections demoChunks demoPolicy =
      Except.ok (runReport demoChunks demoPolicy)) ∧
    ((∀ e ∈ (runReport demoChunks demoPolicy).top_clauses,
        e.score = violSum (runReport demoChunks demoPolicy).results e.clause_name) ∧
      ((runReport demoChunks demoPolicy).top_clauses.map (fun e => e.clause_name)).Nodup ∧
      (∀ n, (∃ e ∈ (runReport demoChunks demoPolicy).top_clauses, e.clause_name = n) ↔
        ∃ f ∈ (runReport demoChunks demoPolicy).results,
          f.is_violation = true ∧ f.clause_name = n) ∧
      (runReport demoChunks demoPolicy).top_clauses.Pairwise (fun a b => b.score ≤ a.score) ∧
      (∀ q : ℚ, (runReport demoChunks demoPolicy).top_clauses.filter
          (fun e => decide (e.score = q)) =
        ((clause_aggF [] (runReport demoChunks demoPolicy).results).map
          (fun kv => TopClause.mk kv.1 kv.2)).filter (fun e => decide (e.score = q))) ∧
      (clause_aggF [] (runReport demoChunks demoPolicy).results).map Prod.fst =
        dedupFirst (((runReport demoChunks demoPolicy).results.filter
          (fun f => f.is_violation)).map (fun f => f.clause_name))) :=
  ⟨by with_unfolding_all rfl,
    claim_C7 demoChunks demoPolicy (runReport demoChunks demoPolicy)
      (by with_unfolding_all rfl)⟩

end LegalRisk
